import Mathlib

/-! Verification of the ENC website data repository: a publisher pipeline
(process_data.py, class WebsiteDataProcessor) and a query service (app.py,
Flask routes).  The Python code is shallowly embedded: directory listings
become lists of entry names, parsed JSON documents become association lists
over an inductive JSON value type, and the pipeline's filesystem writes
become an explicit list of (path, data) pairs applied to an output-tree
state.  Python dict mutation (`del json_data["metadata"]`) is made explicit
by returning the post-call state of the argument alongside the result.
-/

/-- JSON values, as produced by Python's json.load. -/
inductive Json where
  | null
  | bool (b : Bool)
  | num (n : Int)
  | str (s : String)
  | arr (xs : List Json)
  | obj (kvs : List (String × Json))

/-- A parsed top-level JSON object: a Python dict from string keys to values.
Keys are unique, as in a Python dict; modelled as an association list. -/
abbrev Dict := List (String × Json)

/-- Python d.get(k, default): the value of k in the dict, or the default. -/
def dictGet (d : Dict) (k : String) (default : Json) : Json :=
  match d.lookup k with
  | some v => v
  | none => default

/-- Python `del d[k]` on a dict (unique keys): drop the binding of k. -/
def dictDel (d : Dict) (k : String) : Dict :=
  d.filter (fun kv => kv.1 ≠ k)

/-- Python f.startswith(b): b is a codepoint-wise prefix of f (case-sensitive). -/
def pyStartsWith (f b : String) : Bool :=
  List.isPrefixOf b.toList f.toList

/-- Python f.endswith(suffix) for a single suffix: codepoint-wise suffix match. -/
def pyEndsWith (f suff : String) : Bool :=
  List.isSuffixOf suff.toList f.toList

/-- Python f.lower() restricted to ASCII case mapping (all filenames and
extensions handled by the claims are ASCII). -/
def pyLower (s : String) : String :=
  ⟨s.toList.map Char.toLower⟩

/-- Python os.path.splitext on a bare filename (no directory separators):
split at the last dot, unless every character before that dot is a dot
(so ".bashrc" and "..." do not split).  Returns (root, extension). -/
def splitext (s : String) : String × String :=
  let cs := s.toList
  match ((List.range cs.length).filter (fun i => cs.getD i ' ' = '.')).getLast? with
  | none => (s, "")
  | some i => if (cs.take i).all (fun c => c = '.') then (s, "")
              else (⟨cs.take i⟩, ⟨cs.drop i⟩)

/-- Codepoint-wise lexicographic ≤ on character lists, as Python compares
strings.  Executable by kernel reduction (unlike String.ltb, which is defined
by well-founded recursion). -/
def listLe : List Char → List Char → Bool
  | [], _ => true
  | _ :: _, [] => false
  | a :: as, b :: bs =>
    if a < b then true
    else if b < a then false
    else listLe as bs

/-- Python s <= t on strings: codepoint-wise lexicographic comparison. -/
def pyStrLe (s t : String) : Bool :=
  listLe s.toList t.toList

/-- Insert a string into a list, before the first element it compares ≤ to. -/
def insertStr (x : String) : List String → List String
  | [] => [x]
  | y :: ys => if pyStrLe x y then x :: y :: ys else y :: insertStr x ys

/-- Python sorted(...) on strings: ascending sort by codepoint-wise
lexicographic order.  (On strings the sorted output is unique, so any
correct sort models Python's sorted exactly.) -/
def pySorted : List String → List String
  | [] => []
  | x :: xs => insertStr x (pySorted xs)

namespace ProcessData

/-! Embedding of process_data.py (class WebsiteDataProcessor). -/

/-- WebsiteDataProcessor.get_latest_json: the lexicographically last entry
of the model directory whose name starts with base_name, or None.
Source: `json_files = [f for f in os.listdir(model_dir) if f.startswith(base_name)]`
then `return sorted(json_files)[-1] if json_files else None`. -/
def get_latest_json (base_name : String) (model_dir : List String) : Option String :=
  let json_files := model_dir.filter (fun f => pyStartsWith f base_name)
  if json_files.isEmpty then none
  else (pySorted json_files).getLast?

/-- WebsiteDataProcessor.process_json_content.  The Python function both
returns a dict and (in model-result mode) mutates its argument in place via
`del json_data["metadata"]`; the embedding returns
(returned dict, state of the json_data argument after the call). -/
def process_json_content (json_data : Dict) (is_keyword : Bool) : Dict × Dict :=
  if is_keyword then
    ([("ocr_results", dictGet json_data "ocr_results" (Json.obj [])),
      ("identified_keywords", dictGet json_data "identified_keywords" (Json.obj [])),
      ("statistics", dictGet json_data "statistics" (Json.obj []))],
     json_data)
  else
    let d := dictDel json_data "metadata"
    (d, d)

/-- The source tree read by WebsiteDataProcessor: directory listings and the
contents of the files they name.  results_root is os.listdir of raw_results
with results_isdir the os.path.isdir test; model_listing gives the listing
of raw_results/<model>; keyword and model docs are the parsed JSON files. -/
structure SourceTree where
  images_listing : List String
  results_root : List String
  results_isdir : String → Bool
  model_listing : String → List String
  keywords_listing : List String
  image_bytes : String → String
  keyword_doc : String → Dict
  model_doc : String → String → Dict

/-- WebsiteDataProcessor.get_models: subdirectories of the results root, sorted. -/
def get_models (t : SourceTree) : List String :=
  pySorted (t.results_root.filter t.results_isdir)

/-- WebsiteDataProcessor.get_image_files: entries of the image dir whose
lowercased name ends with .jpg, .jpeg or .png, sorted. -/
def get_image_files (t : SourceTree) : List String :=
  pySorted (t.images_listing.filter (fun f =>
    pyEndsWith (pyLower f) ".jpg" || pyEndsWith (pyLower f) ".jpeg" ||
    pyEndsWith (pyLower f) ".png"))

/-- Data written to one output file: the two JSON index arrays, a processed
JSON document (json.dump with fixed options is deterministic in the value),
or a byte-for-byte image copy (shutil.copy2). -/
inductive FileData where
  | names (xs : List String)
  | doc (d : Dict)
  | bytes (b : String)

/-- The keyword-processing step of process_files for one image: resolve the
latest keyword JSON for the image's base name; if found, load, process in
keyword mode and write <output_keywords_dir>/<base_name>.json; else nothing. -/
def keywordWrites (t : SourceTree) (image : String) : List (String × FileData) :=
  let base_name := (splitext image).1
  match get_latest_json base_name t.keywords_listing with
  | none => []
  | some kj =>
      [("data/keywords/" ++ base_name ++ ".json",
        FileData.doc (process_json_content (t.keyword_doc kj) true).1)]

/-- The model-results step of process_files for one image: for each model,
resolve the latest JSON under that model's directory; if found, load,
process in model mode and write <output_results_dir>/<model>/<base_name>.json. -/
def modelWrites (t : SourceTree) (models : List String) (image : String) :
    List (String × FileData) :=
  let base_name := (splitext image).1
  models.filterMap (fun model =>
    match get_latest_json base_name (t.model_listing model) with
    | none => none
    | some jf =>
        some ("data/results/" ++ model ++ "/" ++ base_name ++ ".json",
          FileData.doc (process_json_content (t.model_doc model jf) false).1))

/-- The full ordered sequence of file writes performed by
WebsiteDataProcessor.process_files: the two index files, then per image (in
sorted order) the image copy, the keyword write and the model-result writes. -/
def process_files_writes (t : SourceTree) : List (String × FileData) :=
  let models := get_models t
  let images := get_image_files t
  ("data/models.json", FileData.names models) ::
  ("data/files.json", FileData.names images) ::
  images.flatMap (fun image =>
    ("data/images/" ++ image, FileData.bytes (t.image_bytes image)) ::
    keywordWrites t image ++ modelWrites t models image)

/-- The output tree: a map from output path to the data last written there. -/
def OutputTree := String → Option FileData

/-- Apply a list of writes in order to the output tree; each write overwrites
whatever the path previously held. -/
def applyWrites (ws : List (String × FileData)) (s : OutputTree) : OutputTree :=
  match ws with
  | [] => s
  | (p, c) :: rest => applyWrites rest (fun q => if q = p then some c else s q)

/-- WebsiteDataProcessor.process_files: applies all writes to the output tree
and returns the Python function's return value.  The Python method has no
return statement, so it returns None. -/
def process_files (t : SourceTree) (s : OutputTree) : OutputTree × Option (Nat × Nat) :=
  (applyWrites (process_files_writes t) s, none)

/-- WebsiteDataProcessor.process: creates the output directories (no file
content change), runs process_files, and returns None (the Python method has
no return statement; on exception it logs and re-raises). -/
def process (t : SourceTree) (s : OutputTree) : OutputTree × Option (Nat × Nat) :=
  ((process_files t s).1, none)

/-- The data carried by the last write to a path in a write list, if any. -/
def lastWrite (ws : List (String × FileData)) (q : String) : Option FileData :=
  match ws with
  | [] => none
  | (p, c) :: rest =>
      match lastWrite rest q with
      | some c2 => some c2
      | none => if q = p then some c else none

end ProcessData

namespace App

/-! Embedding of app.py (the Flask query service). -/

/-- The state read by app.py: the listing of RESULTS_FOLDER with its isdir
test, the listing of each RESULTS_FOLDER/<model>, the listing of
IMAGE_FOLDER, and the parsed content of each results JSON file. -/
structure AppState where
  results_folder : List String
  results_isdir : String → Bool
  model_listing : String → List String
  image_folder : List String
  file_json : String → String → Dict

/-- app.py get_available_models: entries of RESULTS_FOLDER that are directories. -/
def get_available_models (s : AppState) : List String :=
  s.results_folder.filter s.results_isdir

/-- The listing-level core of app.py's get_latest_json, applied to the listing
of RESULTS_FOLDER/<model>: strip the extension from the image filename, keep
entries starting with the base name, return the sorted list's last element. -/
def resolve_in_listing (image_filename : String) (listing : List String) :
    Option String :=
  let base_name := (splitext image_filename).1
  let json_files := listing.filter (fun f => pyStartsWith f base_name)
  if json_files.isEmpty then none
  else (pySorted json_files).getLast?

/-- app.py get_latest_json(image_filename, model). -/
def get_latest_json (s : AppState) (image_filename model : String) : Option String :=
  resolve_in_listing image_filename (s.model_listing model)

/-- Responses of the /api/json/<model>/<filename> route that the claims
distinguish: the two 404 error payloads and a 200 with the parsed document. -/
inductive JsonResponse where
  | invalidModel
  | jsonNotFound
  | ok (d : Dict)

/-- app.py get_json(model, filename): 404 "Invalid model" if the model is not
an available model; else resolve the latest JSON, 404 "JSON not found" if
none; else the parsed content of the resolved file. -/
def get_json (s : AppState) (model filename : String) : JsonResponse :=
  if model ∉ get_available_models s then JsonResponse.invalidModel
  else
    match get_latest_json s filename model with
    | none => JsonResponse.jsonNotFound
    | some jf => JsonResponse.ok (s.file_json model jf)

/-- app.py get_files (route /api/files): entries of IMAGE_FOLDER ending with
".jpg" (case-sensitive, this extension only), sorted. -/
def get_files (s : AppState) : List String :=
  pySorted (s.image_folder.filter (fun f => pyEndsWith f ".jpg"))

end App

/-- An exemplar query-service state used to instantiate the theorems: two
model directories m1 and m2 (and one non-directory entry), artifacts for the
base name a only under m1, and a mixed-extension image folder. -/
def exAppState : App.AppState where
  results_folder := ["m1", "m2", "notes.txt"]
  results_isdir := fun d => d ≠ "notes.txt"
  model_listing := fun m =>
    if m = "m1" then ["a_20240101.json", "a_20240102.json"] else []
  image_folder := ["a.jpg", "b.PNG"]
  file_json := fun _ f => [("file", Json.str f)]

/-- An exemplar source tree for the pipeline: one image, one model directory
with one artifact, no keyword annotations. -/
def exTree : ProcessData.SourceTree where
  images_listing := ["a.jpg"]
  results_root := ["m1"]
  results_isdir := fun _ => true
  model_listing := fun _ => ["a_1.json"]
  keywords_listing := []
  image_bytes := fun _ => "bytes"
  keyword_doc := fun _ => []
  model_doc := fun _ _ => []

/-- An empty output tree. -/
def exOut : ProcessData.OutputTree := fun _ => none

/-! Order bridge: listLe and pyStrLe coincide with Lean's lexicographic order
on character lists and strings, which is Python's codepoint-wise order. -/

/-- listLe decides the lexicographic order: it holds exactly when the
reversed strict lexicographic comparison fails. -/
theorem listLe_iff_not_lex :
    ∀ as bs : List Char, listLe as bs = true ↔ ¬ List.Lex (· < ·) bs as := by
  intro as
  induction as with
  | nil =>
      intro bs
      constructor
      · intro _ h
        cases h
      · intro _
        rfl
  | cons a as ih =>
      intro bs
      cases bs with
      | nil =>
          constructor
          · intro h
            exact Bool.noConfusion h
          · intro h
            exact absurd List.Lex.nil h
      | cons b bs =>
          by_cases hab : a < b
          · have e : listLe (a :: as) (b :: bs) = true := by simp [listLe, hab]
            rw [e]
            constructor
            · intro _ h
              cases h with
              | cons h2 => exact lt_irrefl _ hab
              | rel h2 => exact lt_asymm h2 hab
            · intro _
              rfl
          · by_cases hba : b < a
            · have e : listLe (a :: as) (b :: bs) = false := by simp [listLe, hab, hba]
              rw [e]
              constructor
              · intro h
                exact Bool.noConfusion h
              · intro h
                exact absurd (List.Lex.rel hba) h
            · have e : listLe (a :: as) (b :: bs) = listLe as bs := by
                simp [listLe, hab, hba]
              rw [e, ih bs]
              have hba2 : b = a := le_antisymm (le_of_not_lt hab) (le_of_not_lt hba)
              subst hba2
              constructor
              · intro h hlex
                cases hlex with
                | cons h2 => exact h h2
                | rel h2 => exact hba h2
              · intro h hlex
                exact h (List.Lex.cons hlex)

/-- pyStrLe decides Lean's linear order on String, which is lexicographic by
codepoint exactly as Python's string comparison. -/
theorem pyStrLe_iff (s t : String) : pyStrLe s t = true ↔ s ≤ t := by
  rw [pyStrLe, listLe_iff_not_lex, String.le_iff_toList_le, ← not_lt]
  exact Iff.rfl

/-- Membership in an insertStr insertion. -/
theorem mem_insertStr {a x : String} :
    ∀ {l : List String}, a ∈ insertStr x l ↔ a = x ∨ a ∈ l := by
  intro l
  induction l with
  | nil => simp [insertStr]
  | cons y ys ih =>
      by_cases h : pyStrLe x y
      · simp [insertStr, h]
      · simp only [insertStr, h, Bool.false_eq_true, if_false, List.mem_cons, ih]
        tauto

/-- pySorted preserves membership. -/
theorem mem_pySorted {a : String} :
    ∀ {l : List String}, a ∈ pySorted l ↔ a ∈ l := by
  intro l
  induction l with
  | nil => simp [pySorted]
  | cons x xs ih => simp [pySorted, mem_insertStr, ih]

/-- Inserting into a sorted list keeps it sorted. -/
theorem sorted_insertStr (x : String) :
    ∀ {l : List String}, l.Sorted (· ≤ ·) → (insertStr x l).Sorted (· ≤ ·) := by
  intro l
  induction l with
  | nil =>
      intro _
      simp [insertStr]
  | cons y ys ih =>
      intro h
      rw [List.sorted_cons] at h
      by_cases hxy : pyStrLe x y
      · have hxy2 : x ≤ y := (pyStrLe_iff x y).mp hxy
        simp only [insertStr, hxy, if_true]
        rw [List.sorted_cons]
        refine ⟨?_, ?_⟩
        · intro b hb
          rcases List.mem_cons.mp hb with rfl | hb2
          · exact hxy2
          · exact le_trans hxy2 (h.1 b hb2)
        · rw [List.sorted_cons]
          exact h
      · have hyx : y ≤ x := le_of_not_le (fun hc => hxy ((pyStrLe_iff x y).mpr hc))
        simp only [insertStr, hxy, Bool.false_eq_true, if_false]
        rw [List.sorted_cons]
        refine ⟨?_, ih h.2⟩
        intro b hb
        rcases mem_insertStr.mp hb with rfl | hb2
        · exact hyx
        · exact h.1 b hb2

/-- pySorted sorts. -/
theorem sorted_pySorted : ∀ l : List String, (pySorted l).Sorted (· ≤ ·) := by
  intro l
  induction l with
  | nil => simp [pySorted]
  | cons x xs ih => exact sorted_insertStr x ih

/-- The last element of a sorted list bounds every element. -/
theorem sorted_getLast_max :
    ∀ {l : List String}, l.Sorted (· ≤ ·) → ∀ {m : String}, l.getLast? = some m →
      ∀ x ∈ l, x ≤ m := by
  intro l
  induction l with
  | nil =>
      intro _ m hm
      cases hm
  | cons a l ih =>
      intro hs m hm x hx
      cases l with
      | nil =>
          cases hm
          rcases List.mem_singleton.mp hx with rfl
          exact le_refl _
      | cons b l2 =>
          have hm2 : (b :: l2).getLast? = some m := hm
          rcases List.mem_cons.mp hx with rfl | hx2
          · exact List.rel_of_sorted_cons hs m (List.mem_of_mem_getLast? hm2)
          · exact ih (List.Sorted.of_cons hs) hm2 x hx2

/-- A nonempty list has a last element. -/
theorem getLast_of_ne_nil :
    ∀ {l : List String}, l ≠ [] → ∃ m, l.getLast? = some m := by
  intro l
  induction l with
  | nil => intro h; exact absurd rfl h
  | cons a l ih =>
      intro _
      cases l with
      | nil => exact ⟨a, rfl⟩
      | cons b l2 =>
          rcases ih (by simp) with ⟨m, hm⟩
          exact ⟨m, hm⟩

/-! Characterization of the latest-artifact resolution. -/

/-- get_latest_json returns none exactly when no entry matches, and otherwise
returns a prefix-matching entry of the directory that bounds every
prefix-matching entry in the lexicographic order. -/
theorem latest_spec (D : List String) (B : String) :
    (ProcessData.get_latest_json B D = none ↔ ∀ f ∈ D, pyStartsWith f B = false)
    ∧ ∀ r, ProcessData.get_latest_json B D = some r →
        r ∈ D ∧ pyStartsWith r B = true ∧ ∀ f ∈ D, pyStartsWith f B = true → f ≤ r := by
  by_cases h : (D.filter (fun f => pyStartsWith f B)) = []
  · have e : ProcessData.get_latest_json B D = none := by
      simp [ProcessData.get_latest_json, h]
    constructor
    · rw [e]
      simp only [true_iff]
      intro f hf
      by_contra hc
      have hmem : f ∈ D.filter (fun f => pyStartsWith f B) :=
        List.mem_filter.mpr ⟨hf, by simpa using hc⟩
      rw [h] at hmem
      cases hmem
    · intro r hr
      rw [e] at hr
      cases hr
  · have hne : pySorted (D.filter (fun f => pyStartsWith f B)) ≠ [] := by
      intro hc
      rcases List.exists_mem_of_ne_nil _ h with ⟨x, hx⟩
      have hx2 := mem_pySorted.mpr hx
      rw [hc] at hx2
      cases hx2
    rcases getLast_of_ne_nil hne with ⟨m, hm⟩
    have e : ProcessData.get_latest_json B D = some m := by
      simp [ProcessData.get_latest_json, List.isEmpty_iff, h, hm]
    constructor
    · rw [e]
      constructor
      · intro hc
        cases hc
      · intro hall
        exfalso
        rcases List.exists_mem_of_ne_nil _ h with ⟨x, hx⟩
        have hx2 := List.mem_filter.mp hx
        have hfalse := hall x hx2.1
        have htrue : pyStartsWith x B = true := by simpa using hx2.2
        rw [htrue] at hfalse
        cases hfalse
    · intro r hr
      rw [e] at hr
      injection hr with hr2
      subst hr2
      have hmem : m ∈ pySorted (D.filter (fun f => pyStartsWith f B)) :=
        List.mem_of_mem_getLast? hm
      have hmf := List.mem_filter.mp (mem_pySorted.mp hmem)
      refine ⟨hmf.1, by simpa using hmf.2, ?_⟩
      intro f hf hfB
      have hfmem : f ∈ pySorted (D.filter (fun f => pyStartsWith f B)) :=
        mem_pySorted.mpr (List.mem_filter.mpr ⟨hf, by simpa using hfB⟩)
      exact sorted_getLast_max (sorted_pySorted _) hm f hfmem

/-- The query service's resolution on a listing is the pipeline's resolution
at the stripped base name. -/
theorem resolve_in_listing_eq (F B : String) (h : (splitext F).1 = B)
    (listing : List String) :
    App.resolve_in_listing F listing = ProcessData.get_latest_json B listing := by
  rw [App.resolve_in_listing, ProcessData.get_latest_json, h]

/-- C1: the latest-artifact resolution, in both the pipeline
(process_data.py get_latest_json) and the query service (app.py
get_latest_json, acting on the stripped base name), returns the
lexicographically maximal entry of the directory listing whose name starts
with the base name (case-sensitive prefix match), and returns none exactly
when no entry starts with the base name. -/
theorem claim_C1 (D : List String) (B : String) :
    ((ProcessData.get_latest_json B D = none ↔ ∀ f ∈ D, pyStartsWith f B = false)
      ∧ ∀ r, ProcessData.get_latest_json B D = some r →
          r ∈ D ∧ pyStartsWith r B = true ∧ ∀ f ∈ D, pyStartsWith f B = true → f ≤ r)
    ∧ ∀ F, (splitext F).1 = B →
        ((App.resolve_in_listing F D = none ↔ ∀ f ∈ D, pyStartsWith f B = false)
          ∧ ∀ r, App.resolve_in_listing F D = some r →
              r ∈ D ∧ pyStartsWith r B = true ∧ ∀ f ∈ D, pyStartsWith f B = true → f ≤ r) := by
  refine ⟨latest_spec D B, ?_⟩
  intro F hF
  rw [resolve_in_listing_eq F B hF]
  exact latest_spec D B

/-- C1 witness: on the listing a_1.json, a_2.json, b.json with base name a,
both resolvers return a_2.json, which is a maximal matching entry. -/
theorem claim_C1_witness :
    ProcessData.get_latest_json "a" ["a_1.json", "a_2.json", "b.json"] = some "a_2.json"
    ∧ ("a_2.json" ∈ ["a_1.json", "a_2.json", "b.json"]
        ∧ pyStartsWith "a_2.json" "a" = true
        ∧ ∀ f ∈ ["a_1.json", "a_2.json", "b.json"],
            pyStartsWith f "a" = true → f ≤ "a_2.json")
    ∧ App.resolve_in_listing "a.jpg" ["a_1.json", "a_2.json", "b.json"] = some "a_2.json"
    ∧ ("a_2.json" ∈ ["a_1.json", "a_2.json", "b.json"]
        ∧ pyStartsWith "a_2.json" "a" = true
        ∧ ∀ f ∈ ["a_1.json", "a_2.json", "b.json"],
            pyStartsWith f "a" = true → f ≤ "a_2.json") :=
  ⟨by decide,
   (claim_C1 ["a_1.json", "a_2.json", "b.json"] "a").1.2 "a_2.json" (by decide),
   by decide,
   ((claim_C1 ["a_1.json", "a_2.json", "b.json"] "a").2 "a.jpg" (by decide)).2
     "a_2.json" (by decide)⟩

/-- C8: the query service and the pipeline use the same resolution logic:
for any model directory listing, app.py's get_latest_json on an image
filename equals process_data.py's get_latest_json on that filename's base
name. -/
theorem claim_C8 (s : App.AppState) (m F B : String) (h : (splitext F).1 = B) :
    App.get_latest_json s F m = ProcessData.get_latest_json B (s.model_listing m) := by
  rw [App.get_latest_json, resolve_in_listing_eq F B h]

/-- C8 witness: concrete agreement of the two resolvers on the exemplar state. -/
theorem claim_C8_witness :
    (splitext "a.jpg").1 = "a"
    ∧ App.get_latest_json exAppState "a.jpg" "m1"
        = ProcessData.get_latest_json "a" (exAppState.model_listing "m1") :=
  ⟨by decide, claim_C8 exAppState "m1" "a.jpg" "a" (by decide)⟩

/-- C10: the /api/json route ignores the requested filename's extension:
requests whose filenames have equal base names yield identical responses. -/
theorem claim_C10 (s : App.AppState) (m f1 f2 : String)
    (h : (splitext f1).1 = (splitext f2).1) :
    App.get_json s m f1 = App.get_json s m f2 := by
  rw [App.get_json, App.get_json, App.get_latest_json, App.get_latest_json,
      App.resolve_in_listing, App.resolve_in_listing, h]

/-- C10 witness: a.jpg and a.png produce the same response. -/
theorem claim_C10_witness :
    (splitext "a.jpg").1 = (splitext "a.png").1
    ∧ App.get_json exAppState "m1" "a.jpg" = App.get_json exAppState "m1" "a.png" :=
  ⟨by decide, claim_C10 exAppState "m1" "a.jpg" "a.png" (by decide)⟩

/-- C7: error handling of /api/json/(model)/(filename): an unknown model
gives the Invalid-model 404 payload; a known model with no artifact starting
with the filename's base name gives the JSON-not-found 404 payload;
otherwise the response is the parsed content of the resolved latest
artifact. -/
theorem claim_C7 (s : App.AppState) (m f : String) :
    (m ∉ App.get_available_models s →
        App.get_json s m f = App.JsonResponse.invalidModel)
    ∧ (m ∈ App.get_available_models s →
        (∀ g ∈ s.model_listing m, pyStartsWith g (splitext f).1 = false) →
        App.get_json s m f = App.JsonResponse.jsonNotFound)
    ∧ (m ∈ App.get_available_models s →
        ∀ jf, App.get_latest_json s f m = some jf →
        App.get_json s m f = App.JsonResponse.ok (s.file_json m jf)) := by
  refine ⟨?_, ?_, ?_⟩
  · intro h
    simp [App.get_json, h]
  · intro hm hnone
    have hfil : (s.model_listing m).filter (fun g => pyStartsWith g (splitext f).1) = [] :=
      List.filter_eq_nil_iff.mpr (fun g hg => by simp [hnone g hg])
    have hres : App.get_latest_json s f m = none := by
      rw [App.get_latest_json, App.resolve_in_listing]
      simp [hfil]
    simp [App.get_json, hm, hres]
  · intro hm jf hjf
    simp [App.get_json, hm, hjf]

/-- C7 witness: on the exemplar state, an unknown model, a model with no
matching artifact, and a successful resolution produce the three specified
responses. -/
theorem claim_C7_witness :
    ("zz" ∉ App.get_available_models exAppState)
    ∧ App.get_json exAppState "zz" "a.jpg" = App.JsonResponse.invalidModel
    ∧ ("m2" ∈ App.get_available_models exAppState)
    ∧ App.get_json exAppState "m2" "a.jpg" = App.JsonResponse.jsonNotFound
    ∧ App.get_latest_json exAppState "a.jpg" "m1" = some "a_20240102.json"
    ∧ App.get_json exAppState "m1" "a.jpg"
        = App.JsonResponse.ok (exAppState.file_json "m1" "a_20240102.json") :=
  ⟨by decide,
   (claim_C7 exAppState "zz" "a.jpg").1 (by decide),
   by decide,
   (claim_C7 exAppState "m2" "a.jpg").2.1 (by decide) (by decide),
   by decide,
   (claim_C7 exAppState "m1" "a.jpg").2.2 (by decide) "a_20240102.json" (by decide)⟩

/-- applyWrites evaluates to the last write at each path, falling back to the
prior state where no write touches the path. -/
theorem applyWrites_eq_lastWrite :
    ∀ (ws : List (String × ProcessData.FileData)) (s : ProcessData.OutputTree)
      (q : String),
      ProcessData.applyWrites ws s q =
        match ProcessData.lastWrite ws q with
        | some c => some c
        | none => s q := by
  intro ws
  induction ws with
  | nil =>
      intro s q
      rfl
  | cons pc rest ih =>
      intro s q
      obtain ⟨p, c⟩ := pc
      rw [ProcessData.applyWrites, ProcessData.lastWrite, ih]
      cases ProcessData.lastWrite rest q with
      | some c2 => rfl
      | none =>
          by_cases hq : q = p
          · simp [hq]
          · simp [hq]

/-- Applying the same write list twice is the same as applying it once. -/
theorem applyWrites_idem (ws : List (String × ProcessData.FileData))
    (s : ProcessData.OutputTree) :
    ProcessData.applyWrites ws (ProcessData.applyWrites ws s) =
      ProcessData.applyWrites ws s := by
  funext q
  rw [applyWrites_eq_lastWrite, applyWrites_eq_lastWrite]
  cases ProcessData.lastWrite ws q with
  | some c => rfl
  | none => rfl

/-- C2: running process_files twice consecutively on an unchanged source
tree produces the identical output tree: the second run performs exactly the
same deterministic writes, so every written file has identical content and
the set of output paths is unchanged. -/
theorem claim_C2 (t : ProcessData.SourceTree) (s : ProcessData.OutputTree) :
    (ProcessData.process_files t (ProcessData.process_files t s).1).1
      = (ProcessData.process_files t s).1 :=
  applyWrites_idem (ProcessData.process_files_writes t) s

/-- dictGet is lookup with a default. -/
theorem dictGet_eq_getD (d : Dict) (k : String) (v : Json) :
    dictGet d k v = (d.lookup k).getD v := by
  cases h : d.lookup k with
  | none => simp [dictGet, h]
  | some w => simp [dictGet, h]

/-- C3: annotation-mode reshape yields exactly the keys ocr_results,
identified_keywords and statistics, each bound to the input's value for the
key when present and to the empty object otherwise; the function is total,
so a missing key never raises. -/
theorem claim_C3 (d : Dict) :
    ((ProcessData.process_json_content d true).1.map Prod.fst
        = ["ocr_results", "identified_keywords", "statistics"])
    ∧ (ProcessData.process_json_content d true).1.lookup "ocr_results"
        = some ((d.lookup "ocr_results").getD (Json.obj []))
    ∧ (ProcessData.process_json_content d true).1.lookup "identified_keywords"
        = some ((d.lookup "identified_keywords").getD (Json.obj []))
    ∧ (ProcessData.process_json_content d true).1.lookup "statistics"
        = some ((d.lookup "statistics").getD (Json.obj [])) := by
  refine ⟨rfl, ?_, ?_, ?_⟩ <;>
    simp [ProcessData.process_json_content, List.lookup, dictGet_eq_getD]

/-- Looking up a key different from the deleted one is unchanged by dictDel. -/
theorem lookup_dictDel {a k : String} (h : k ≠ a) :
    ∀ d : Dict, (dictDel d a).lookup k = d.lookup k := by
  intro d
  induction d with
  | nil => rfl
  | cons kv rest ih =>
      obtain ⟨k1, v⟩ := kv
      by_cases h1 : k1 = a
      · subst h1
        have hk : (k == k1) = false := by
          simp [h]
        simp [dictDel, List.lookup, hk] at ih ⊢
        exact ih
      · by_cases h2 : k = k1
        · subst h2
          simp [dictDel, List.lookup, h1]
        · have hk : (k == k1) = false := by
            simp [h2]
          simp [dictDel, List.lookup, h1, hk] at ih ⊢
          exact ih

/-- C4: model-result-mode reshape returns a mapping that has no metadata key
and preserves the binding of every other key unchanged; the function is
total, so it does not raise when metadata is absent. -/
theorem claim_C4 (d : Dict) (k : String) (hk : k ≠ "metadata") :
    ("metadata" ∉ (ProcessData.process_json_content d false).1.map Prod.fst)
    ∧ (ProcessData.process_json_content d false).1.lookup k = d.lookup k := by
  constructor
  · intro hmem
    rcases List.mem_map.mp hmem with ⟨kv, hkv, hfst⟩
    have hflt := (List.mem_filter.mp hkv).2
    rw [hfst] at hflt
    simp at hflt
  · exact lookup_dictDel hk d

/-- C4 witness: deleting metadata from a two-key document leaves the other
binding intact. -/
theorem claim_C4_witness :
    (("a" : String) ≠ "metadata")
    ∧ (("metadata" ∉ (ProcessData.process_json_content
          [("metadata", Json.null), ("a", Json.num 1)] false).1.map Prod.fst)
       ∧ (ProcessData.process_json_content
            [("metadata", Json.null), ("a", Json.num 1)] false).1.lookup "a"
          = ([("metadata", Json.null), ("a", Json.num 1)] : Dict).lookup "a") :=
  ⟨by decide, claim_C4 [("metadata", Json.null), ("a", Json.num 1)] "a" (by decide)⟩

/-- C5 counterexample: in model-result mode the call mutates its argument in
place: after the call on the document whose only key is metadata, the
argument document is empty, not unchanged. -/
theorem claim_C5_counterexample :
    (ProcessData.process_json_content [("metadata", Json.null)] false).2
      ≠ [("metadata", Json.null)] := by
  simp [ProcessData.process_json_content, dictDel]

/-- C5 amended: reshape performs no I/O in either mode and is pure in
annotation mode (the argument is unchanged after the call); in model-result
mode the argument is mutated in place to the metadata-free document and the
returned value is that same mutated document. -/
theorem claim_C5_amended (d : Dict) :
    (ProcessData.process_json_content d true).2 = d
    ∧ (ProcessData.process_json_content d false).2 = dictDel d "metadata"
    ∧ (ProcessData.process_json_content d false).2
        = (ProcessData.process_json_content d false).1 :=
  ⟨rfl, rfl, rfl⟩

/-- C6 counterexample: b.PNG ends case-insensitively with .png and is in the
image folder, yet the query service's file listing does not select it: its
filter is case-sensitive and matches only the extension .jpg. -/
theorem claim_C6_counterexample :
    pyEndsWith (pyLower "b.PNG") ".png" = true
    ∧ "b.PNG" ∈ exAppState.image_folder
    ∧ "b.PNG" ∉ App.get_files exAppState :=
  ⟨by decide, by decide, by decide⟩

/-- C6 amended: the pipeline's discovery selects exactly the entries whose
lowercased name ends with .jpg, .jpeg or .png and returns them sorted; the
query service's file listing instead selects exactly the entries ending with
the single case-sensitive extension .jpg, also sorted. -/
theorem claim_C6_amended (t : ProcessData.SourceTree) (s : App.AppState)
    (f : String) :
    (f ∈ ProcessData.get_image_files t ↔ f ∈ t.images_listing ∧
       (pyEndsWith (pyLower f) ".jpg" || pyEndsWith (pyLower f) ".jpeg" ||
        pyEndsWith (pyLower f) ".png") = true)
    ∧ (ProcessData.get_image_files t).Sorted (· ≤ ·)
    ∧ (f ∈ App.get_files s ↔ f ∈ s.image_folder ∧ pyEndsWith f ".jpg" = true)
    ∧ (App.get_files s).Sorted (· ≤ ·) := by
  refine ⟨?_, sorted_pySorted _, ?_, sorted_pySorted _⟩
  · rw [ProcessData.get_image_files, mem_pySorted, List.mem_filter]
  · rw [App.get_files, mem_pySorted, List.mem_filter]

/-- C9 counterexample: on the exemplar source tree a completed run returns
None (process_files has no return statement), not the pair of counts. -/
theorem claim_C9_counterexample :
    ¬ ((ProcessData.process_files exTree exOut).2
        = some ((ProcessData.get_image_files exTree).length,
                (ProcessData.get_models exTree).length)) :=
  fun h => Option.noConfusion h

/-- C9 amended: a completed run returns None rather than the pair
(image_count, model_count); the two counts are the lengths of the discovered
lists, which the run records as its first two writes, models.json and
files.json. -/
theorem claim_C9_amended (t : ProcessData.SourceTree) (s : ProcessData.OutputTree) :
    (ProcessData.process_files t s).2 = none
    ∧ (ProcessData.process t s).2 = none
    ∧ ∃ rest, ProcessData.process_files_writes t =
        ("data/models.json", ProcessData.FileData.names (ProcessData.get_models t)) ::
        ("data/files.json", ProcessData.FileData.names (ProcessData.get_image_files t))
          :: rest :=
  ⟨rfl, rfl, ⟨_, rfl⟩⟩
